import Mathlib

/-!
Verification of the nim-bincode FFI wrapper (`src/lib.rs`).

The boundary functions `bincode_serialize`, `bincode_deserialize` and
`bincode_get_serialized_length` are embedded as pure Lean functions.

Pointer arguments are modelled as `Option (List Nat)`: `none` is a null
pointer, `some bs` is a non-null pointer whose readable memory holds the
bytes `bs`; reading `len` bytes from it is `bs.take len`.  Bytes are `Nat`
(kept below 256 by construction on the encode side).  The `out_len`
out-parameter is modelled by the `written` field of `CallResult`: `none`
means the call returned without storing through `out_len`, `some n` means
it stored `n`.  A null `out_len` pointer is the `outLenNull := true` case.

The wrapped codec engine (the `bincode` crate) is not part of the
repository's sources; its encode/decode for `Vec<u8>` under the fixed
little-endian configuration, and its variable-strategy integer encoding,
are modelled from the spec (sections 4.1, 4.2 and 6) and from the
repository's format tests.
-/

namespace NimBincode

/-- Little-endian byte string of a natural number, `w` bytes wide
(the value is taken modulo `256 ^ w`). -/
def toLEBytes : Nat → Nat → List Nat
  | 0, _ => []
  | w + 1, v => v % 256 :: toLEBytes w (v / 256)

/-- Read a little-endian byte string back into a natural number. -/
def fromLEBytes : List Nat → Nat
  | [] => 0
  | b :: bs => b + 256 * fromLEBytes bs

/-- Modelled from the spec: the codec engine's encoding of a byte sequence
under the fixed-integer little-endian configuration (spec sections 4.1, 4.2
and 6, and the repository's `bincode_format.rs` tests): the 8-byte
little-endian `u64` encoding of the payload length, followed by the payload
verbatim. -/
def encodeFixedSeq (payload : List Nat) : List Nat :=
  toLEBytes 8 payload.length ++ payload

/-- Modelled from the spec: the codec engine's decoding of a byte sequence
under the fixed-integer little-endian configuration (spec section 4.2):
read an 8-byte little-endian length field, then exactly that many payload
bytes; fail if the input is too short; report the number of bytes
consumed. -/
def decodeFixedSeq (input : List Nat) : Option (List Nat × Nat) :=
  if input.length < 8 then none
  else
    let l := fromLEBytes (input.take 8)
    let rest := input.drop 8
    if rest.length < l then none
    else some (rest.take l, 8 + l)

/-- Modelled from the spec: the codec engine's variable-strategy encoding of
an unsigned integer (spec section 4.1 and the
`test_marker_byte_prefixes_variable` test): single byte up to 250, then
marker bytes `0xFB`/`0xFC`/`0xFD` followed by 2/4/8 little-endian bytes. -/
def varintEncode (v : Nat) : List Nat :=
  if v ≤ 250 then [v]
  else if v ≤ 65535 then 0xFB :: toLEBytes 2 v
  else if v ≤ 4294967295 then 0xFC :: toLEBytes 4 v
  else 0xFD :: toLEBytes 8 v

/-- Outcome of one boundary call: the returned pointer (`none` = null) and
the value stored through `out_len` (`none` = the call returned without
storing). -/
structure CallResult where
  result : Option (List Nat)
  written : Option Nat
deriving DecidableEq

/-- `bincode_serialize` from `src/lib.rs`: null `out_len` returns null at
once; a zero `len` makes the payload empty regardless of `data`; a null
`data` with nonzero `len` returns null without storing; then the 64 KiB
pre-encode check on the payload, the encode, and the post-encode check on
the encoded buffer. -/
def bincode_serialize (data : Option (List Nat)) (len : Nat)
    (outLenNull : Bool) : CallResult :=
  if outLenNull then ⟨none, none⟩
  else
    let vecOpt : Option (List Nat) :=
      if len = 0 then some []
      else
        match data with
        | none => none
        | some bs => some (bs.take len)
    match vecOpt with
    | none => ⟨none, none⟩
    | some vec =>
      if vec.length > 65536 then ⟨none, some 0⟩
      else
        let encoded := encodeFixedSeq vec
        if encoded.length > 65536 then ⟨none, some 0⟩
        else ⟨some encoded, some encoded.length⟩

/-- `bincode_deserialize` from `src/lib.rs`: null `out_len` returns null at
once; a zero `len` makes the input slice empty regardless of `data`; a null
`data` with nonzero `len` returns null without storing; then the engine
decode followed by the exact-consumption check. -/
def bincode_deserialize (data : Option (List Nat)) (len : Nat)
    (outLenNull : Bool) : CallResult :=
  if outLenNull then ⟨none, none⟩
  else
    let sliceOpt : Option (List Nat) :=
      if len = 0 then some []
      else
        match data with
        | none => none
        | some bs => some (bs.take len)
    match sliceOpt with
    | none => ⟨none, none⟩
    | some slice =>
      match decodeFixedSeq slice with
      | none => ⟨none, some 0⟩
      | some (decoded, bytesRead) =>
        if bytesRead ≠ slice.length then ⟨none, some 0⟩
        else ⟨some decoded, some decoded.length⟩

/-- `bincode_get_serialized_length` from `src/lib.rs`: 0 on a null `data`
pointer (whatever `len` is), otherwise the length of the engine's encoding
of the `len` bytes at `data`. -/
def bincode_get_serialized_length (data : Option (List Nat)) (len : Nat) :
    Nat :=
  match data with
  | none => 0
  | some bs => (encodeFixedSeq (bs.take len)).length

theorem length_toLEBytes (w v : Nat) : (toLEBytes w v).length = w := by
  induction w generalizing v with
  | zero => rfl
  | succ w ih => simp [toLEBytes, ih]

theorem fromLEBytes_toLEBytes (w v : Nat) (h : v < 256 ^ w) :
    fromLEBytes (toLEBytes w v) = v := by
  induction w generalizing v with
  | zero => simpa [toLEBytes, fromLEBytes] using (Nat.lt_one_iff.mp h).symm
  | succ w ih =>
      have hdiv : v / 256 < 256 ^ w := by
        rw [Nat.div_lt_iff_lt_mul (by norm_num)]
        calc v < 256 ^ (w + 1) := h
          _ = 256 ^ w * 256 := by ring
      simp only [toLEBytes, fromLEBytes, ih _ hdiv]
      omega

theorem getElem?_toLEBytes (w v i : Nat) (h : i < w) :
    (toLEBytes w v)[i]? = some (v / 256 ^ i % 256) := by
  induction w generalizing v i with
  | zero => omega
  | succ w ih =>
      cases i with
      | zero => simp [toLEBytes]
      | succ i =>
          have : (toLEBytes w (v / 256))[i]? =
              some (v / 256 / 256 ^ i % 256) := ih _ _ (by omega)
          simp only [toLEBytes, List.getElem?_cons_succ, this,
            Nat.div_div_eq_div_mul]
          ring_nf

theorem length_encodeFixedSeq (b : List Nat) :
    (encodeFixedSeq b).length = 8 + b.length := by
  simp [encodeFixedSeq, length_toLEBytes]

/-- Decoding an encoded buffer with an arbitrary suffix appended recovers
the payload and consumes exactly the encoded buffer's bytes. -/
theorem decodeFixedSeq_encode_append (b s : List Nat)
    (h : b.length < 256 ^ 8) :
    decodeFixedSeq (encodeFixedSeq b ++ s) = some (b, 8 + b.length) := by
  have hlf : (toLEBytes 8 b.length).length = 8 := length_toLEBytes 8 _
  have htake : (toLEBytes 8 b.length ++ (b ++ s)).take 8 =
      toLEBytes 8 b.length := List.take_left' hlf
  have hdrop : (toLEBytes 8 b.length ++ (b ++ s)).drop 8 = b ++ s :=
    List.drop_left' hlf
  have htake2 : (b ++ s).take b.length = b := List.take_left' rfl
  simp only [decodeFixedSeq, encodeFixedSeq, List.append_assoc, htake,
    hdrop, List.length_append, hlf, fromLEBytes_toLEBytes 8 _ h, htake2]
  rw [if_neg (by omega), if_neg (by omega)]

theorem decodeFixedSeq_encode (b : List Nat) (h : b.length < 256 ^ 8) :
    decodeFixedSeq (encodeFixedSeq b) = some (b, 8 + b.length) := by
  have := decodeFixedSeq_encode_append b [] h
  simpa using this

/-- Closed form of a serialize call with a live `out_len` pointer and a
non-null `data` pointer: the payload slice is `bs.take len` (also when
`len = 0`, where it is empty), and the two size checks collapse to
`8 + payload length ≤ 65536`. -/
theorem bincode_serialize_some_eq (bs : List Nat) (len : Nat) :
    bincode_serialize (some bs) len false =
      if 8 + (bs.take len).length ≤ 65536 then
        ⟨some (encodeFixedSeq (bs.take len)),
         some (8 + (bs.take len).length)⟩
      else ⟨none, some 0⟩ := by
  by_cases hl : len = 0
  · subst hl
    simp [bincode_serialize, length_encodeFixedSeq]
  · simp only [bincode_serialize, if_neg hl, Bool.false_eq_true, if_false,
      length_encodeFixedSeq]
    by_cases h1 : (bs.take len).length > 65536
    · rw [if_pos h1, if_neg (by omega)]
    · rw [if_neg h1]
      by_cases h2 : 8 + (bs.take len).length ≤ 65536
      · rw [if_neg (by omega), if_pos h2]
      · rw [if_pos (by omega), if_neg h2]

/-- Closed form of a serialize call with a null `data` pointer: with zero
`len` the payload is empty and encoding succeeds; with nonzero `len` the
call returns null without storing through `out_len`. -/
theorem bincode_serialize_none_eq (len : Nat) :
    bincode_serialize none len false =
      if len = 0 then ⟨some (encodeFixedSeq []), some 8⟩
      else ⟨none, none⟩ := by
  by_cases hl : len = 0
  · subst hl
    simp [bincode_serialize, length_encodeFixedSeq]
  · simp [bincode_serialize, hl]

/-- Closed form of a deserialize call with a live `out_len` pointer and a
non-null `data` pointer: the input slice is `bs.take len`, decoded by the
engine and then checked for full consumption. -/
theorem bincode_deserialize_some_eq (bs : List Nat) (len : Nat) :
    bincode_deserialize (some bs) len false =
      match decodeFixedSeq (bs.take len) with
      | none => ⟨none, some 0⟩
      | some (decoded, bytesRead) =>
        if bytesRead ≠ (bs.take len).length then ⟨none, some 0⟩
        else ⟨some decoded, some decoded.length⟩ := by
  by_cases hl : len = 0
  · subst hl
    simp [bincode_deserialize, decodeFixedSeq]
  · simp [bincode_deserialize, hl]

/-- Every buffer returned by a successful serialize call is the encoding of
some payload whose encoded form fits the 64 KiB limit. -/
theorem bincode_serialize_result_encodes (data : Option (List Nat))
    (len : Nat) (e : List Nat)
    (he : (bincode_serialize data len false).result = some e) :
    ∃ vec : List Nat, e = encodeFixedSeq vec ∧ 8 + vec.length ≤ 65536 := by
  cases data with
  | none =>
      rw [bincode_serialize_none_eq] at he
      by_cases hl : len = 0
      · rw [if_pos hl] at he
        simp only [Option.some.injEq] at he
        exact ⟨[], he.symm, by norm_num⟩
      · rw [if_neg hl] at he
        simp at he
  | some bs =>
      rw [bincode_serialize_some_eq] at he
      by_cases h : 8 + (bs.take len).length ≤ 65536
      · rw [if_pos h] at he
        simp only [Option.some.injEq] at he
        exact ⟨bs.take len, he.symm, h⟩
      · rw [if_neg h] at he
        simp at he

/-- Deserializing an encoded buffer with a non-empty suffix appended fails
the exact-consumption check: null result, 0 stored through `out_len`. -/
theorem deserialize_encode_append (vec s : List Nat)
    (h : vec.length < 256 ^ 8) (hs : s ≠ []) :
    bincode_deserialize (some (encodeFixedSeq vec ++ s))
      (encodeFixedSeq vec ++ s).length false = ⟨none, some 0⟩ := by
  have hne : 8 + vec.length ≠ (encodeFixedSeq vec ++ s).length := by
    have := List.length_pos.mpr hs
    simp only [List.length_append, length_encodeFixedSeq]
    omega
  rw [bincode_deserialize_some_eq, List.take_length,
    decodeFixedSeq_encode_append vec s h]
  show (if 8 + vec.length ≠ (encodeFixedSeq vec ++ s).length then
      (⟨none, some 0⟩ : CallResult)
    else ⟨some vec, some vec.length⟩) = ⟨none, some 0⟩
  rw [if_pos hne]

/-- C9: `bincode_serialize` with a null data pointer, zero length and a
live `out_len` pointer succeeds: it returns the 8-byte all-zero encoding
of the empty sequence and stores that buffer's length, 8. -/
theorem C9_serialize_null_zero_succeeds :
    bincode_serialize none 0 false =
      ⟨some [0, 0, 0, 0, 0, 0, 0, 0], some 8⟩ := by decide

/-- C10: `bincode_deserialize` on a zero-length input, with the data
pointer null or not and a live `out_len` pointer, always fails, storing 0
through `out_len` and returning a null pointer: the empty buffer is never
a valid encoding, since the fixed length field alone needs 8 bytes. -/
theorem C10_deserialize_empty_fails (data : Option (List Nat)) :
    bincode_deserialize data 0 false = ⟨none, some 0⟩ := by
  cases data with
  | none => decide
  | some bs =>
      rw [bincode_deserialize_some_eq]
      simp [decodeFixedSeq]

/-- C7: a payload longer than 65536 bytes is rejected by the pre-encode
size check of `bincode_serialize`: 0 is stored through `out_len` and a
null pointer is returned. -/
theorem C7_payload_over_limit_rejected (bs : List Nat)
    (h : 65536 < bs.length) :
    bincode_serialize (some bs) bs.length false = ⟨none, some 0⟩ := by
  rw [bincode_serialize_some_eq, List.take_length, if_neg (by omega)]

theorem C7_witness :
    bincode_serialize (some (List.replicate 65537 0))
      (List.replicate 65537 0).length false = ⟨none, some 0⟩ :=
  C7_payload_over_limit_rejected (List.replicate 65537 0)
    (by rw [List.length_replicate]; norm_num)

/-- C8: a payload within the 64 KiB limit whose encoded form (payload plus
the 8-byte length field) exceeds the limit makes `bincode_serialize` fail:
null pointer returned, 0 stored through `out_len`, no encoded result. -/
theorem C8_encoded_over_limit_rejected (bs : List Nat)
    (h1 : bs.length ≤ 65536) (h2 : 65536 < bs.length + 8) :
    bincode_serialize (some bs) bs.length false = ⟨none, some 0⟩ := by
  rw [bincode_serialize_some_eq, List.take_length, if_neg (by omega)]

theorem C8_witness :
    bincode_serialize (some (List.replicate 65529 0))
      (List.replicate 65529 0).length false = ⟨none, some 0⟩ :=
  C8_encoded_over_limit_rejected (List.replicate 65529 0)
    (by rw [List.length_replicate]; norm_num)
    (by rw [List.length_replicate]; norm_num)

/-- C1 counterexample: the 65529-byte payload is within the claimed bound
`len(b) ≤ 65536`, yet `bincode_serialize` returns a null pointer (the
encoded form, 65537 bytes, exceeds the limit), so serialize-then-
deserialize cannot yield the payload back. -/
theorem C1_counterexample :
    (List.replicate 65529 0).length ≤ 65536 ∧
      bincode_serialize (some (List.replicate 65529 0))
        (List.replicate 65529 0).length false = ⟨none, some 0⟩ := by
  constructor
  · rw [List.length_replicate]
    norm_num
  · rw [bincode_serialize_some_eq, List.take_length, List.length_replicate,
      if_neg (by norm_num)]

/-- C1 (amended): for every byte sequence `b` whose encoded form fits the
limit (`len(b) + 8 ≤ 65536`), serialize succeeds with the encoded buffer,
the engine decode of that buffer yields `b` back consuming exactly the
whole buffer, and the boundary deserialize of it returns `b` with its
length stored through `out_len`. -/
theorem C1_roundtrip (b : List Nat) (h : b.length + 8 ≤ 65536) :
    bincode_serialize (some b) b.length false =
      ⟨some (encodeFixedSeq b), some (encodeFixedSeq b).length⟩ ∧
    decodeFixedSeq (encodeFixedSeq b) =
      some (b, (encodeFixedSeq b).length) ∧
    bincode_deserialize (some (encodeFixedSeq b))
      (encodeFixedSeq b).length false = ⟨some b, some b.length⟩ := by
  have hlt : b.length < 256 ^ 8 := by
    have : (65536 : Nat) < 256 ^ 8 := by norm_num
    omega
  refine ⟨?_, ?_, ?_⟩
  · rw [bincode_serialize_some_eq, List.take_length, if_pos (by omega),
      length_encodeFixedSeq]
  · rw [decodeFixedSeq_encode b hlt, length_encodeFixedSeq]
  · rw [bincode_deserialize_some_eq, List.take_length,
      decodeFixedSeq_encode b hlt]
    show (if 8 + b.length ≠ (encodeFixedSeq b).length then
        (⟨none, some 0⟩ : CallResult)
      else ⟨some b, some b.length⟩) = ⟨some b, some b.length⟩
    rw [if_neg (by rw [length_encodeFixedSeq]; omega)]

theorem C1_witness :
    bincode_deserialize (some (encodeFixedSeq [1, 2, 3, 4, 5]))
      (encodeFixedSeq [1, 2, 3, 4, 5]).length false =
      ⟨some [1, 2, 3, 4, 5], some 5⟩ :=
  (C1_roundtrip [1, 2, 3, 4, 5] (by norm_num)).2.2

/-- C2 counterexample: `bincode_serialize` with a null data pointer and
nonzero length fails (returns null) but does not store 0 — or anything —
through `out_len`, contradicting the claim that every failing call with a
live `out_len` pointer stores 0. -/
theorem C2_counterexample :
    (bincode_serialize none 5 false).result = none ∧
      (bincode_serialize none 5 false).written ≠ some 0 := by decide

/-- C2 (amended): every failing serialize or deserialize call with a live
`out_len` pointer stores 0 through it, except the null-data-with-nonzero-
length precondition violation, which returns null leaving `out_len`
unwritten; every failing call does return a null pointer with one of
those two `out_len` effects. -/
theorem C2_failure_signaling (data : Option (List Nat)) (len : Nat) :
    ((bincode_serialize data len false).result = none →
      (bincode_serialize data len false).written = some 0 ∨
        (data = none ∧ len ≠ 0 ∧
          (bincode_serialize data len false).written = none)) ∧
    ((bincode_deserialize data len false).result = none →
      (bincode_deserialize data len false).written = some 0 ∨
        (data = none ∧ len ≠ 0 ∧
          (bincode_deserialize data len false).written = none)) := by
  constructor
  · intro hf
    cases data with
    | none =>
        rw [bincode_serialize_none_eq] at hf ⊢
        by_cases hl : len = 0
        · rw [if_pos hl] at hf
          simp at hf
        · rw [if_neg hl]
          exact Or.inr ⟨rfl, hl, rfl⟩
    | some bs =>
        rw [bincode_serialize_some_eq] at hf ⊢
        by_cases h : 8 + (bs.take len).length ≤ 65536
        · rw [if_pos h] at hf
          simp at hf
        · rw [if_neg h]
          exact Or.inl rfl
  · intro hf
    cases data with
    | none =>
        by_cases hl : len = 0
        · subst hl
          left
          rw [C10_deserialize_empty_fails]
        · exact Or.inr ⟨rfl, hl, by simp [bincode_deserialize, hl]⟩
    | some bs =>
        rw [bincode_deserialize_some_eq] at hf ⊢
        cases hd : decodeFixedSeq (bs.take len) with
        | none => exact Or.inl rfl
        | some p =>
            obtain ⟨d, br⟩ := p
            by_cases hb : br = (bs.take len).length
            · rw [hd] at hf
              simp [hb, -List.length_take] at hf
            · exact Or.inl (by simp [hb, -List.length_take])

theorem C2_witness :
    (bincode_deserialize (some [1, 2, 3]) 3 false).written = some 0 ∨
      (some [1, 2, 3] = (none : Option (List Nat)) ∧ (3 : Nat) ≠ 0 ∧
        (bincode_deserialize (some [1, 2, 3]) 3 false).written = none) :=
  (C2_failure_signaling (some [1, 2, 3]) 3).2 (by decide)

/-- C3 counterexample: on the null-pointer-with-zero-length input,
`bincode_serialize` succeeds and reports encoded length 8, but
`bincode_get_serialized_length` returns 0 (its null-pointer guard fires
whatever the length is), so the two disagree on that input. -/
theorem C3_counterexample :
    (bincode_serialize none 0 false).result ≠ none ∧
      (bincode_serialize none 0 false).written = some 8 ∧
      bincode_get_serialized_length none 0 = 0 := by decide

/-- C3 (amended): for every input with a non-null data pointer on which
`bincode_serialize` succeeds reporting encoded length `L` through
`out_len`, `bincode_get_serialized_length` on the same input returns the
same `L`; the null-pointer-with-zero-length input is an exception, where
serialize reports 8 but the length query returns 0. -/
theorem C3_length_query_agrees (bs : List Nat) (len L : Nat)
    (hs : (bincode_serialize (some bs) len false).result ≠ none)
    (hw : (bincode_serialize (some bs) len false).written = some L) :
    bincode_get_serialized_length (some bs) len = L := by
  rw [bincode_serialize_some_eq] at hs hw
  by_cases h : 8 + (bs.take len).length ≤ 65536
  · rw [if_pos h] at hw
    simp only [Option.some.injEq] at hw
    simp only [bincode_get_serialized_length, length_encodeFixedSeq]
    omega
  · rw [if_neg h] at hs
    simp at hs

theorem C3_witness : bincode_get_serialized_length (some [1, 2]) 2 = 10 :=
  C3_length_query_agrees [1, 2] 2 10 (by decide) (by decide)

/-- C4: appending any non-empty suffix to a buffer returned by a
successful serialize call makes `bincode_deserialize` fail — null pointer
returned and 0 stored through `out_len` — because the bytes consumed by
the decode no longer equal the total input length. -/
theorem C4_trailing_bytes_rejected (data : Option (List Nat)) (len : Nat)
    (e s : List Nat)
    (he : (bincode_serialize data len false).result = some e)
    (hs : s ≠ []) :
    bincode_deserialize (some (e ++ s)) (e ++ s).length false =
      ⟨none, some 0⟩ := by
  obtain ⟨vec, rfl, hv⟩ := bincode_serialize_result_encodes data len e he
  have hlt : vec.length < 256 ^ 8 := by
    have : (65536 : Nat) < 256 ^ 8 := by norm_num
    omega
  exact deserialize_encode_append vec s hlt hs

theorem C4_witness :
    bincode_deserialize (some (encodeFixedSeq [1, 2, 3] ++ [255]))
      (encodeFixedSeq [1, 2, 3] ++ [255]).length false = ⟨none, some 0⟩ :=
  C4_trailing_bytes_rejected (some [1, 2, 3]) 3 (encodeFixedSeq [1, 2, 3])
    [255] (by decide) (by decide)

/-- C5: under the Fixed strategy the encoded buffer is exactly the 8-byte
little-endian u64 encoding of the payload length followed by the payload
verbatim: it is 8 bytes longer than the payload, byte `i` (for `i < 8`) is
byte `i` of the little-endian length, dropping the first 8 bytes gives the
payload back; the empty sequence encodes as 8 zero bytes and
`[1,2,3,4,5]` as the 13 bytes `[5,0,0,0,0,0,0,0,1,2,3,4,5]`. -/
theorem C5_fixed_wire_format :
    (∀ b : List Nat, (encodeFixedSeq b).length = 8 + b.length ∧
      (encodeFixedSeq b).drop 8 = b ∧
      ∀ i, i < 8 →
        (encodeFixedSeq b)[i]? = some (b.length / 256 ^ i % 256)) ∧
    encodeFixedSeq [] = [0, 0, 0, 0, 0, 0, 0, 0] ∧
    encodeFixedSeq [1, 2, 3, 4, 5] =
      [5, 0, 0, 0, 0, 0, 0, 0, 1, 2, 3, 4, 5] := by
  refine ⟨fun b => ⟨length_encodeFixedSeq b, ?_, ?_⟩, by decide, by decide⟩
  · exact List.drop_left' (length_toLEBytes 8 _)
  · intro i hi
    rw [encodeFixedSeq,
      List.getElem?_append_left (by rw [length_toLEBytes]; exact hi)]
    exact getElem?_toLEBytes 8 _ i hi

theorem C5_witness :
    (encodeFixedSeq [7])[0]? = some 1 := by
  simpa using (C5_fixed_wire_format.1 [7]).2.2 0 (by norm_num)

/-- C6: under the Variable strategy an unsigned value `v` encodes as a
single byte `v` when `v ≤ 250`; as marker `0xFB` plus 2 little-endian
bytes (3 bytes in all, recovering `v`) when `251 ≤ v ≤ 65535`; as marker
`0xFC` plus 4 little-endian bytes when `65536 ≤ v ≤ 4294967295`; and as
marker `0xFD` plus 8 little-endian bytes when `v ≥ 4294967296` — with the
thresholds exact at each boundary. -/
theorem C6_varint_thresholds (v : Nat) :
    (v ≤ 250 → varintEncode v = [v]) ∧
    (251 ≤ v → v ≤ 65535 →
      varintEncode v = 0xFB :: toLEBytes 2 v ∧
        (varintEncode v).length = 3 ∧ fromLEBytes (toLEBytes 2 v) = v) ∧
    (65536 ≤ v → v ≤ 4294967295 →
      varintEncode v = 0xFC :: toLEBytes 4 v ∧
        (varintEncode v).length = 5 ∧ fromLEBytes (toLEBytes 4 v) = v) ∧
    (4294967296 ≤ v →
      varintEncode v = 0xFD :: toLEBytes 8 v ∧
        (varintEncode v).length = 9 ∧
        (v < 2 ^ 64 → fromLEBytes (toLEBytes 8 v) = v)) := by
  refine ⟨fun h1 => ?_, fun h1 h2 => ?_, fun h1 h2 => ?_, fun h1 => ?_⟩
  · rw [varintEncode, if_pos h1]
  · have hv : varintEncode v = 0xFB :: toLEBytes 2 v := by
      rw [varintEncode, if_neg (by omega), if_pos h2]
    exact ⟨hv, by rw [hv]; simp [length_toLEBytes],
      fromLEBytes_toLEBytes 2 v (lt_of_le_of_lt h2 (by norm_num))⟩
  · have hv : varintEncode v = 0xFC :: toLEBytes 4 v := by
      rw [varintEncode, if_neg (by omega), if_neg (by omega), if_pos h2]
    exact ⟨hv, by rw [hv]; simp [length_toLEBytes],
      fromLEBytes_toLEBytes 4 v (lt_of_le_of_lt h2 (by norm_num))⟩
  · have hv : varintEncode v = 0xFD :: toLEBytes 8 v := by
      rw [varintEncode, if_neg (by omega), if_neg (by omega),
        if_neg (by omega)]
    refine ⟨hv, by rw [hv]; simp [length_toLEBytes], fun h3 => ?_⟩
    exact fromLEBytes_toLEBytes 8 v
      (by have : (2 : Nat) ^ 64 = 256 ^ 8 := by norm_num
          omega)

theorem C6_witness :
    varintEncode 300 = 0xFB :: toLEBytes 2 300 ∧
      (varintEncode 300).length = 3 ∧
      fromLEBytes (toLEBytes 2 300) = 300 :=
  (C6_varint_thresholds 300).2.1 (by norm_num) (by norm_num)

end NimBincode
